import Mathlib

/-!
Verification development for the pdf-to-pptx converter (src/main.tsx).

The core pipeline `convertPdfToPptx` is embedded shallowly: a decoded document
is a list of pages; the per-page loop (getPage / getViewport / render /
addSlide / addImage / setProgress) becomes a structurally recursive function
over that list, faithful to the source line by line.  External collaborators
(pdfjs, the canvas, pptxgenjs) are not part of src/, so their contracts are
modelled from the specification, and each such definition says so in its doc
comment.  The source's JavaScript number arithmetic is IEEE-754 binary64,
so the progress computation is embedded through an explicit
round-to-nearest-double function on rationals rather than exact rational
arithmetic.
-/

set_option maxRecDepth 8000

namespace PdfToPptx

/-- Models the fixed oversampling factor passed to getViewport in
src/main.tsx line 72 (`scale: 2.0`). -/
def scale : ℚ := 2

/-- A decoded page: intrinsic size in source length-units (points), together
with a flag telling whether every fallible step of this page's cycle
(getPage, canvas-context creation, render) succeeds.  The flag models the
environment's per-page failure channel. -/
structure PageSpec where
  width : ℚ
  height : ℚ
  renderOk : Bool
deriving DecidableEq

/-- Pixel-space rendering target of one page. -/
structure Viewport where
  pixelWidth : ℤ
  pixelHeight : ℤ
deriving DecidableEq

/-- Modelled from the spec: pdfjs `page.getViewport` is not part of src/.
Spec section 3 fixes `pixelWidth, pixelHeight = ceil(intrinsicSize * scale)`,
both positive integers for a positive intrinsic size. -/
def getViewport (p : PageSpec) : Viewport :=
  { pixelWidth := ⌈p.width * scale⌉, pixelHeight := ⌈p.height * scale⌉ }

/-- A rasterized page image.  Its pixel buffer is abstracted to its
dimensions plus the 1-based number of the page whose visual content it
holds. -/
structure RasterImage where
  pixelWidth : ℤ
  pixelHeight : ℤ
  pageIndex : ℕ
deriving DecidableEq

/-- Modelled from the spec: rasterization (canvas sized to the viewport,
`page.render`, `canvas.toDataURL`) produces a pixel buffer of exactly the
viewport dimensions holding page i's visual content. -/
def rasterize (i : ℕ) (p : PageSpec) : RasterImage :=
  { pixelWidth := (getViewport p).pixelWidth
    pixelHeight := (getViewport p).pixelHeight
    pageIndex := i }

/-- Physical slide dimensions in inches. -/
structure CanvasSize where
  width : ℚ
  height : ℚ
deriving DecidableEq

/-- `widthInInches` / `heightInInches` of src/main.tsx lines 91-92: the
viewport pixel dimensions divided by `(72 * scale)`. -/
def inchesOf (v : Viewport) : CanvasSize :=
  { width := (v.pixelWidth : ℚ) / (72 * scale)
    height := (v.pixelHeight : ℚ) / (72 * scale) }

/-- Modelled from the spec and pptxgenjs defaults: the layout in effect when
no custom layout has been defined (16x9, 10in by 5.625in).  Unreachable on
the append path, because the first loop iteration installs the custom layout
before the first slide is added. -/
def defaultLayout : CanvasSize := ⟨10, 45 / 8⟩

/-- One deck slide: the embedded image, the image's position and size as
passed to `slide.addImage` (src/main.tsx lines 102-108), and the deck layout
in effect when the slide was added (pptxgenjs slides take their size from the
presentation layout). -/
structure Slide where
  image : RasterImage
  x : ℚ
  y : ℚ
  w : ℚ
  h : ℚ
  slideSize : CanvasSize
deriving DecidableEq

/-- The slide built for page number `i` (1-based) under deck layout `L`:
`addSlide()` followed by `addImage({data, x: 0, y: 0, w, h})` with `w`, `h`
computed from this page's own viewport (src/main.tsx lines 101-108). -/
def mkSlide (i : ℕ) (p : PageSpec) (L : CanvasSize) : Slide :=
  { image := rasterize i p
    x := 0
    y := 0
    w := (inchesOf (getViewport p)).width
    h := (inchesOf (getViewport p)).height
    slideSize := L }

/-- The mutable pptxgenjs presentation object: the currently installed
layout (none until `defineLayout` + `pptx.layout` run on page 1) and the
ordered slide sequence. -/
structure DeckState where
  layout : Option CanvasSize
  slides : List Slide
deriving DecidableEq

/-- Modelled from the spec: the failure taxonomy of spec section 7 for the
single failure channel (the source collapses all failures into one caught
exception plus a generic message). -/
inductive ConvError where
  | decodeError
  | renderError (pageNum : ℕ)
  | emptyDeckError
deriving DecidableEq

/-- The serialized deck: layout and slide sequence as frozen by `write`. -/
structure Blob where
  layout : Option CanvasSize
  slides : List Slide
deriving DecidableEq

/-- Modelled from the spec: pptxgenjs `pptx.write` is not part of src/.
Spec section 4.4 fixes finalize to fail with `EmptyDeckError` when zero
slides were appended, and otherwise to serialize the full slide sequence and
canvas size. -/
def writeDeck (d : DeckState) : Except ConvError Blob :=
  if d.slides.isEmpty then Except.error ConvError.emptyDeckError
  else Except.ok { layout := d.layout, slides := d.slides }

/-- Round a rational to the nearest integer, ties to even: the significand
rounding used by IEEE-754 round-to-nearest. -/
def roundNearestEven (x : ℚ) : ℤ :=
  if x - (⌊x⌋ : ℚ) < 1 / 2 then ⌊x⌋
  else if 1 / 2 < x - (⌊x⌋ : ℚ) then ⌊x⌋ + 1
  else if ⌊x⌋ % 2 = 0 then ⌊x⌋ else ⌊x⌋ + 1

/-- Modelled from IEEE-754 binary64, the number type of the source's
JavaScript arithmetic: round an exact (rational) value to the nearest
double, ties to even.  A positive value in the binade from 2^e to 2^(e+1)
is scaled to a 53-bit significand, rounded, and scaled back.  The model
covers the normal range (no overflow or subnormal handling), which contains
every value arising in the progress computation for any realizable page
count, and it treats page numbers and counts as exactly representable
(integers below 2^53). -/
def fl64 (q : ℚ) : ℚ :=
  if q = 0 then 0
  else if 0 < q then
    (roundNearestEven (q * 2 ^ ((52 : ℤ) - Int.log 2 q)) : ℚ) * 2 ^ (Int.log 2 q - 52)
  else
    -((roundNearestEven (-q * 2 ^ ((52 : ℤ) - Int.log 2 (-q))) : ℚ) * 2 ^ (Int.log 2 (-q) - 52))

/-- JavaScript `Math.round` applied to a double: ECMAScript rounds the exact
value of the argument to the nearest integer, half toward positive
infinity. -/
def jsRound (q : ℚ) : ℤ := ⌊q + 1 / 2⌋

/-- The value passed to `setProgress` after page `i` of `N` (src/main.tsx
line 110): `Math.round((i / numPages) * 100)` evaluated in IEEE-754 double
precision — the division and the multiplication each round their exact
result to the nearest double, and `Math.round` then rounds half up. -/
def progressValue (N i : ℕ) : ℤ := jsRound (fl64 (fl64 ((i : ℚ) / (N : ℚ)) * 100))

/-- Observable outcome of one conversion run, mirroring the React state the
source writes: the blob handed to `setPptxBlob` on success, the error set by
the catch block on failure, the sequence of per-page `setProgress` reports
emitted by the loop (the idle reset `setProgress(0)` that precedes decoding
is not a per-page report), and whether the deck builder (`new pptxgen()`)
was ever constructed. -/
structure Outcome where
  pptxBlob : Option Blob
  errorMsg : Option ConvError
  progressEvents : List ℤ
  deckCreated : Bool
deriving DecidableEq

/-- The page loop of `convertPdfToPptx` (src/main.tsx lines 68-111), page
number `i` running from 1: on success of page `i`'s cycle, install the
layout derived from this page's viewport if `i = 1`, append the slide built
from this page under the current layout, report progress, continue; on the
first page-cycle failure stop with that page's number. -/
def processPages (N : ℕ) : ℕ → List PageSpec → DeckState → List ℤ → DeckState × List ℤ × Option ℕ
  | _, [], st, evs => (st, evs, none)
  | i, p :: rest, st, evs =>
      if p.renderOk then
        let st1 := if i = 1 then { st with layout := some (inchesOf (getViewport p)) } else st
        let st2 := { st1 with slides := st1.slides ++ [mkSlide i p (st1.layout.getD defaultLayout)] }
        processPages N (i + 1) rest st2 (evs ++ [progressValue N i])
      else
        (st, evs, some i)

/-- The input as the core sees it: `none` when `pdfjs.getDocument` rejects
the byte buffer (undecodable), otherwise the decoded page list. -/
structure PdfInput where
  decoded : Option (List PageSpec)
deriving DecidableEq

/-- The conversion pipeline of src/main.tsx lines 61-120: decode, construct
the deck builder, run the page loop, serialize; any failure is caught and
becomes the error outcome with no blob. -/
def convertPdfToPptx (input : PdfInput) : Outcome :=
  match input.decoded with
  | none =>
      { pptxBlob := none, errorMsg := some ConvError.decodeError
        progressEvents := [], deckCreated := false }
  | some pages =>
      match processPages pages.length 1 pages { layout := none, slides := [] } [] with
      | (_, evs, some i) =>
          { pptxBlob := none, errorMsg := some (ConvError.renderError i)
            progressEvents := evs, deckCreated := true }
      | (st, evs, none) =>
          match writeDeck st with
          | Except.ok b =>
              { pptxBlob := some b, errorMsg := none
                progressEvents := evs, deckCreated := true }
          | Except.error e =>
              { pptxBlob := none, errorMsg := some e
                progressEvents := evs, deckCreated := true }

/-- Placeholder page used as a default for out-of-range list reads in
theorem statements; never reached under the stated bounds. -/
def blankPage : PageSpec := ⟨0, 0, true⟩

/-- Closed form of the slide sequence a successful run appends for the pages
starting at page number `i` under the fixed deck layout `L`. -/
def buildSlides (L : CanvasSize) : ℕ → List PageSpec → List Slide
  | _, [] => []
  | i, p :: ps => mkSlide i p L :: buildSlides L (i + 1) ps

/-- Closed form of the progress reports a successful run emits for `k`
consecutive pages starting at page number `i`, out of `N` total. -/
def buildProgress (N : ℕ) : ℕ → ℕ → List ℤ
  | _, 0 => []
  | i, k + 1 => progressValue N i :: buildProgress N (i + 1) k

/-- The literal `'.pdf'` of src/main.tsx line 128, as a character list. -/
def pdfExt : List Char := ['.', 'p', 'd', 'f']

/-- The literal `'.pptx'` of src/main.tsx line 128, as a character list. -/
def pptxExt : List Char := ['.', 'p', 'p', 't', 'x']

/-- JavaScript `String.prototype.replace` with a (non-empty) string pattern:
replace only the first occurrence of `pat`, leave the string unchanged when
`pat` does not occur. -/
def replaceFirst : List Char → List Char → List Char → List Char
  | [], _, _ => []
  | c :: rest, pat, rep =>
      if pat.isPrefixOf (c :: rest) then rep ++ (c :: rest).drop pat.length
      else c :: replaceFirst rest pat rep

/-- The download file name of `downloadPptx` (src/main.tsx line 128):
`file.name.replace('.pdf', '.pptx')`. -/
def downloadName (name : List Char) : List Char := replaceFirst name pdfExt pptxExt

/-! ### Structural lemmas about the closed forms -/

lemma buildSlides_length (L : CanvasSize) :
    ∀ (ps : List PageSpec) (i : ℕ), (buildSlides L i ps).length = ps.length := by
  intro ps
  induction ps with
  | nil => intro i; simp [buildSlides]
  | cons p ps ih => intro i; simp [buildSlides, ih]

lemma buildSlides_get (L : CanvasSize) :
    ∀ (ps : List PageSpec) (i j : ℕ) (hj : j < (buildSlides L i ps).length),
      (buildSlides L i ps).get ⟨j, hj⟩ = mkSlide (i + j) (ps.getD j blankPage) L := by
  intro ps
  induction ps with
  | nil => intro i j hj; simp [buildSlides] at hj
  | cons p ps ih =>
      intro i j hj
      cases j with
      | zero => rfl
      | succ j =>
          have hj' : j < (buildSlides L (i + 1) ps).length := Nat.lt_of_succ_lt_succ hj
          have h2 := ih (i + 1) j hj'
          have harith : i + 1 + j = i + (j + 1) := by omega
          rw [harith] at h2
          exact h2

lemma buildSlides_slideSize (L : CanvasSize) :
    ∀ (ps : List PageSpec) (i : ℕ) (s : Slide), s ∈ buildSlides L i ps → s.slideSize = L := by
  intro ps
  induction ps with
  | nil => intro i s hs; simp [buildSlides] at hs
  | cons p ps ih =>
      intro i s hs
      rcases (by simpa [buildSlides] using hs : s = mkSlide i p L ∨ s ∈ buildSlides L (i + 1) ps) with h | h
      · rw [h]; rfl
      · exact ih (i + 1) s h

lemma buildProgress_length (N : ℕ) :
    ∀ (k i : ℕ), (buildProgress N i k).length = k := by
  intro k
  induction k with
  | zero => intro i; simp [buildProgress]
  | succ k ih => intro i; simp [buildProgress, ih]

lemma buildProgress_get (N : ℕ) :
    ∀ (k i j : ℕ) (hj : j < (buildProgress N i k).length),
      (buildProgress N i k).get ⟨j, hj⟩ = progressValue N (i + j) := by
  intro k
  induction k with
  | zero => intro i j hj; simp [buildProgress] at hj
  | succ k ih =>
      intro i j hj
      cases j with
      | zero => rfl
      | succ j =>
          have hj' : j < (buildProgress N (i + 1) k).length := Nat.lt_of_succ_lt_succ hj
          have h2 := ih (i + 1) j hj'
          have harith : i + 1 + j = i + (j + 1) := by omega
          rw [harith] at h2
          exact h2

lemma buildProgress_getLast (N : ℕ) :
    ∀ (k i : ℕ), (buildProgress N i (k + 1)).getLast? = some (progressValue N (i + k)) := by
  intro k
  induction k with
  | zero => intro i; simp [buildProgress]
  | succ k ih =>
      intro i
      have h2 : buildProgress N i (k + 1 + 1) =
          progressValue N i :: progressValue N (i + 1) :: buildProgress N (i + 1 + 1) k := by
        simp [buildProgress]
      rw [h2, List.getLast?_cons_cons]
      have := ih (i + 1)
      rw [(by simp [buildProgress] : buildProgress N (i + 1) (k + 1) =
        progressValue N (i + 1) :: buildProgress N (i + 1 + 1) k)] at this
      rw [this]
      congr 2
      omega

/-! ### Lemmas about round-to-nearest-even and the binary64 model -/

lemma rne_le (x : ℚ) : (roundNearestEven x : ℚ) ≤ x + 1 / 2 := by
  unfold roundNearestEven
  have h1 := Int.floor_le x
  have h2 := Int.lt_floor_add_one x
  split_ifs with ha hb hc
  · linarith
  · push_cast
    linarith
  · linarith
  · push_cast
    have heq : x - (⌊x⌋ : ℚ) = 1 / 2 := le_antisymm (not_lt.mp hb) (not_lt.mp ha)
    linarith

lemma rne_ge (x : ℚ) : x - 1 / 2 ≤ (roundNearestEven x : ℚ) := by
  unfold roundNearestEven
  have h1 := Int.floor_le x
  have h2 := Int.lt_floor_add_one x
  split_ifs with ha hb hc
  · linarith
  · push_cast
    linarith
  · have heq : x - (⌊x⌋ : ℚ) = 1 / 2 := le_antisymm (not_lt.mp hb) (not_lt.mp ha)
    linarith
  · push_cast
    linarith

lemma rne_mono {x y : ℚ} (h : x ≤ y) : roundNearestEven x ≤ roundNearestEven y := by
  by_contra hc
  have h3 : (roundNearestEven y : ℚ) + 1 ≤ (roundNearestEven x : ℚ) := by
    exact_mod_cast Int.add_one_le_iff.mpr (not_le.mp hc)
  have h1 := rne_le x
  have h2 := rne_ge y
  have hxy : x = y := le_antisymm h (by linarith)
  exact hc (le_of_eq (by rw [hxy]))

lemma rne_le_of_lt_intCast {x : ℚ} {n : ℤ} (h : x < (n : ℚ)) : roundNearestEven x ≤ n := by
  have h1 := rne_le x
  have : (roundNearestEven x : ℚ) < (n : ℚ) + 1 := by linarith
  exact_mod_cast Int.lt_add_one_iff.mp (by exact_mod_cast this)

lemma intCast_le_rne {x : ℚ} {n : ℤ} (h : (n : ℚ) ≤ x) : n ≤ roundNearestEven x := by
  have h1 := rne_ge x
  have : (n : ℚ) - 1 < (roundNearestEven x : ℚ) := by linarith
  have h2 : n - 1 < roundNearestEven x := by exact_mod_cast this
  omega

lemma rne_eval_lo (x : ℚ) (f : ℤ) (hf : ⌊x⌋ = f) (h : x - (f : ℚ) < 1 / 2) :
    roundNearestEven x = f := by
  unfold roundNearestEven
  rw [hf, if_pos h]

lemma rne_eval_hi (x : ℚ) (f : ℤ) (hf : ⌊x⌋ = f) (h : 1 / 2 < x - (f : ℚ)) :
    roundNearestEven x = f + 1 := by
  unfold roundNearestEven
  rw [hf, if_neg (by linarith), if_pos h]

lemma zpow_mul_zpow (a b : ℤ) : (2 : ℚ) ^ a * (2 : ℚ) ^ b = 2 ^ (a + b) :=
  (zpow_add₀ (by norm_num : (2 : ℚ) ≠ 0) a b).symm

lemma Int_log_eq_of_binade {q : ℚ} {e : ℤ} (h1 : (2 : ℚ) ^ e ≤ q) (h2 : q < 2 ^ (e + 1)) :
    Int.log 2 q = e := by
  have hq : 0 < q := lt_of_lt_of_le (by positivity) h1
  have hle : e ≤ Int.log 2 q := by
    refine (Int.zpow_le_iff_le_log one_lt_two hq).mp ?_
    exact_mod_cast h1
  have hlt : Int.log 2 q < e + 1 := by
    refine (Int.lt_zpow_iff_log_lt one_lt_two hq).mp ?_
    exact_mod_cast h2
  omega

lemma fl64_char {q : ℚ} {e : ℤ} (h1 : (2 : ℚ) ^ e ≤ q) (h2 : q < 2 ^ (e + 1)) :
    fl64 q = (roundNearestEven (q * 2 ^ ((52 : ℤ) - e)) : ℚ) * 2 ^ (e - 52) := by
  have hq : 0 < q := lt_of_lt_of_le (by positivity) h1
  have hlog := Int_log_eq_of_binade h1 h2
  unfold fl64
  rw [if_neg (ne_of_gt hq), if_pos hq, hlog]

lemma two_zpow_log_le {q : ℚ} (hq : 0 < q) : (2 : ℚ) ^ (Int.log 2 q) ≤ q := by
  exact_mod_cast Int.zpow_log_le_self (b := 2) one_lt_two hq

lemma lt_two_zpow_log_succ (q : ℚ) : q < (2 : ℚ) ^ (Int.log 2 q + 1) := by
  exact_mod_cast Int.lt_zpow_succ_log_self (b := 2) one_lt_two q

lemma fl64_ge_of_binade {q : ℚ} {e : ℤ} (h1 : (2 : ℚ) ^ e ≤ q) (h2 : q < 2 ^ (e + 1)) :
    q - 2 ^ (e - 53) ≤ fl64 q := by
  rw [fl64_char h1 h2]
  have hpow : (0 : ℚ) < 2 ^ (e - 52) := by positivity
  have hkey : (q * 2 ^ ((52 : ℤ) - e) - 1 / 2) * 2 ^ (e - 52) = q - 2 ^ (e - 53) := by
    rw [sub_mul, mul_assoc, zpow_mul_zpow,
      (by ring : (52 : ℤ) - e + (e - 52) = 0), zpow_zero, mul_one,
      (by norm_num : (1 / 2 : ℚ) = 2 ^ (-1 : ℤ)), zpow_mul_zpow,
      (by ring : (-1 : ℤ) + (e - 52) = e - 53)]
  have := mul_le_mul_of_nonneg_right (rne_ge (q * 2 ^ ((52 : ℤ) - e))) (le_of_lt hpow)
  linarith [hkey ▸ this]

lemma fl64_zero : fl64 0 = 0 := by
  unfold fl64
  simp

lemma fl64_nonneg {q : ℚ} (h : 0 ≤ q) : 0 ≤ fl64 q := by
  rcases eq_or_lt_of_le h with h0 | h0
  · rw [← h0, fl64_zero]
  · have hb1 := two_zpow_log_le h0
    have hb2 := lt_two_zpow_log_succ q
    have hlow := fl64_ge_of_binade hb1 hb2
    have hmono : (2 : ℚ) ^ (Int.log 2 q - 53) ≤ 2 ^ (Int.log 2 q) :=
      zpow_le_zpow_right₀ (by norm_num) (by omega)
    linarith

lemma fl64_upper_binade {q : ℚ} {e : ℤ} (h1 : (2 : ℚ) ^ e ≤ q) (h2 : q < 2 ^ (e + 1)) :
    fl64 q ≤ 2 ^ (e + 1) := by
  rw [fl64_char h1 h2]
  have hm : q * 2 ^ ((52 : ℤ) - e) < ((2 ^ 53 : ℤ) : ℚ) := by
    have := mul_lt_mul_of_pos_right h2 (show (0 : ℚ) < 2 ^ ((52 : ℤ) - e) by positivity)
    rw [zpow_mul_zpow, (by ring : e + 1 + ((52 : ℤ) - e) = 53)] at this
    push_cast
    calc q * 2 ^ ((52 : ℤ) - e) < (2 : ℚ) ^ (53 : ℤ) := this
      _ = 2 ^ (53 : ℕ) := by norm_num
  have hr : roundNearestEven (q * 2 ^ ((52 : ℤ) - e)) ≤ 2 ^ 53 := rne_le_of_lt_intCast hm
  have hrq : (roundNearestEven (q * 2 ^ ((52 : ℤ) - e)) : ℚ) ≤ (2 : ℚ) ^ (53 : ℤ) := by
    calc (roundNearestEven (q * 2 ^ ((52 : ℤ) - e)) : ℚ) ≤ ((2 ^ 53 : ℤ) : ℚ) := by
          exact_mod_cast hr
      _ = (2 : ℚ) ^ (53 : ℤ) := by push_cast; norm_num
  calc (roundNearestEven (q * 2 ^ ((52 : ℤ) - e)) : ℚ) * 2 ^ (e - 52)
      ≤ (2 : ℚ) ^ (53 : ℤ) * 2 ^ (e - 52) := by
        exact mul_le_mul_of_nonneg_right hrq (by positivity)
    _ = 2 ^ (e + 1) := by rw [zpow_mul_zpow]; congr 1; ring

lemma fl64_lower_binade {q : ℚ} {e : ℤ} (h1 : (2 : ℚ) ^ e ≤ q) (h2 : q < 2 ^ (e + 1)) :
    (2 : ℚ) ^ e ≤ fl64 q := by
  rw [fl64_char h1 h2]
  have hm : ((2 ^ 52 : ℤ) : ℚ) ≤ q * 2 ^ ((52 : ℤ) - e) := by
    have := mul_le_mul_of_nonneg_right h1 (show (0 : ℚ) ≤ 2 ^ ((52 : ℤ) - e) by positivity)
    rw [zpow_mul_zpow, (by ring : e + ((52 : ℤ) - e) = 52)] at this
    push_cast
    calc ((2 : ℚ) ^ (52 : ℕ)) = (2 : ℚ) ^ (52 : ℤ) := by norm_num
      _ ≤ q * 2 ^ ((52 : ℤ) - e) := this
  have hr : (2 ^ 52 : ℤ) ≤ roundNearestEven (q * 2 ^ ((52 : ℤ) - e)) := intCast_le_rne hm
  have hrq : (2 : ℚ) ^ (52 : ℤ) ≤ (roundNearestEven (q * 2 ^ ((52 : ℤ) - e)) : ℚ) := by
    calc (2 : ℚ) ^ (52 : ℤ) = ((2 ^ 52 : ℤ) : ℚ) := by push_cast; norm_num
      _ ≤ _ := by exact_mod_cast hr
  calc (2 : ℚ) ^ e = (2 : ℚ) ^ (52 : ℤ) * 2 ^ (e - 52) := by
        rw [zpow_mul_zpow]; congr 1; ring
    _ ≤ (roundNearestEven (q * 2 ^ ((52 : ℤ) - e)) : ℚ) * 2 ^ (e - 52) := by
        exact mul_le_mul_of_nonneg_right hrq (by positivity)

lemma fl64_mono {x y : ℚ} (hx : 0 ≤ x) (hxy : x ≤ y) : fl64 x ≤ fl64 y := by
  rcases eq_or_lt_of_le hx with h0 | h0
  · rw [← h0, fl64_zero]
    exact fl64_nonneg (le_trans hx hxy)
  · have hy : 0 < y := lt_of_lt_of_le h0 hxy
    have hex1 := two_zpow_log_le h0
    have hex2 := lt_two_zpow_log_succ x
    have hey1 := two_zpow_log_le hy
    have hey2 := lt_two_zpow_log_succ y
    have hee : Int.log 2 x ≤ Int.log 2 y := Int.log_mono_right h0 hxy
    rcases eq_or_lt_of_le hee with heq | hlt
    · rw [fl64_char hex1 hex2, fl64_char hey1 hey2, ← heq]
      have harg : x * 2 ^ ((52 : ℤ) - Int.log 2 x) ≤ y * 2 ^ ((52 : ℤ) - Int.log 2 x) :=
        mul_le_mul_of_nonneg_right hxy (by positivity)
      have := rne_mono harg
      exact mul_le_mul_of_nonneg_right (by exact_mod_cast this) (by positivity)
    · calc fl64 x ≤ 2 ^ (Int.log 2 x + 1) := fl64_upper_binade hex1 hex2
        _ ≤ 2 ^ (Int.log 2 y) := zpow_le_zpow_right₀ (by norm_num) (by omega)
        _ ≤ fl64 y := fl64_lower_binade hey1 hey2

lemma fl64_one : fl64 1 = 1 := by
  rw [fl64_char (e := 0) (by norm_num) (by norm_num)]
  rw [rne_eval_lo _ 4503599627370496 (by norm_num) (by norm_num)]
  norm_num

lemma fl64_hundred : fl64 100 = 100 := by
  rw [fl64_char (e := 6) (by norm_num) (by norm_num)]
  rw [rne_eval_lo _ 7036874417766400 (by norm_num) (by norm_num)]
  norm_num

/-! ### Arithmetic lemmas about the progress formula -/

lemma progressValue_nonneg (N i : ℕ) : 0 ≤ progressValue N i := by
  unfold progressValue jsRound
  have h0 : (0 : ℚ) ≤ fl64 (fl64 ((i : ℚ) / (N : ℚ)) * 100) := by
    apply fl64_nonneg
    have : (0 : ℚ) ≤ fl64 ((i : ℚ) / (N : ℚ)) := fl64_nonneg (by positivity)
    positivity
  apply Int.floor_nonneg.mpr
  linarith

lemma progressValue_le_hundred (N i : ℕ) (hN : 0 < N) (hi : i ≤ N) :
    progressValue N i ≤ 100 := by
  unfold progressValue jsRound
  have hNq : (0 : ℚ) < (N : ℚ) := by exact_mod_cast hN
  have hdiv : (i : ℚ) / (N : ℚ) ≤ 1 := by
    rw [div_le_one hNq]
    exact_mod_cast hi
  have hv1 : fl64 ((i : ℚ) / (N : ℚ)) ≤ 1 := by
    calc fl64 ((i : ℚ) / (N : ℚ)) ≤ fl64 1 := fl64_mono (by positivity) hdiv
      _ = 1 := fl64_one
  have hv1n : (0 : ℚ) ≤ fl64 ((i : ℚ) / (N : ℚ)) := fl64_nonneg (by positivity)
  have hP : fl64 (fl64 ((i : ℚ) / (N : ℚ)) * 100) ≤ 100 := by
    calc fl64 (fl64 ((i : ℚ) / (N : ℚ)) * 100) ≤ fl64 100 :=
          fl64_mono (by positivity) (by nlinarith)
      _ = 100 := fl64_hundred
  have hlt : fl64 (fl64 ((i : ℚ) / (N : ℚ)) * 100) + 1 / 2 < ((101 : ℤ) : ℚ) := by
    push_cast
    linarith
  have := Int.floor_lt.mpr hlt
  omega

lemma progressValue_mono (N : ℕ) {i j : ℕ} (hij : i ≤ j) :
    progressValue N i ≤ progressValue N j := by
  unfold progressValue jsRound
  apply Int.floor_le_floor
  have hdiv : (i : ℚ) / (N : ℚ) ≤ (j : ℚ) / (N : ℚ) := by
    rcases Nat.eq_zero_or_pos N with h0 | h0
    · simp [h0]
    · have hN : (0 : ℚ) < (N : ℚ) := by exact_mod_cast h0
      have : (i : ℚ) ≤ (j : ℚ) := by exact_mod_cast hij
      exact (div_le_div_iff_of_pos_right hN).mpr this
  have h1 : fl64 ((i : ℚ) / (N : ℚ)) ≤ fl64 ((j : ℚ) / (N : ℚ)) :=
    fl64_mono (by positivity) hdiv
  have h2 : fl64 (fl64 ((i : ℚ) / (N : ℚ)) * 100) ≤ fl64 (fl64 ((j : ℚ) / (N : ℚ)) * 100) := by
    apply fl64_mono
    · have : (0 : ℚ) ≤ fl64 ((i : ℚ) / (N : ℚ)) := fl64_nonneg (by positivity)
      positivity
    · nlinarith
  linarith

lemma progressValue_last (N : ℕ) (hN : 0 < N) : progressValue N N = 100 := by
  unfold progressValue jsRound
  have hNq : (N : ℚ) ≠ 0 := by
    have : (0 : ℚ) < (N : ℚ) := by exact_mod_cast hN
    exact ne_of_gt this
  rw [div_self hNq, fl64_one, one_mul, fl64_hundred]
  norm_num

lemma fl64_23_40 : fl64 ((23 : ℚ) / 40) = (5179139571476070 : ℚ) * 2 ^ ((-1 : ℤ) - 52) := by
  rw [fl64_char (e := -1) (by norm_num) (by norm_num)]
  rw [rne_eval_lo _ 5179139571476070 (by norm_num) (by norm_num)]
  norm_num

lemma fl64_prod_23_40 :
    fl64 ((5179139571476070 : ℚ) * 2 ^ ((-1 : ℤ) - 52) * 100) =
      (8092405580431359 : ℚ) * 2 ^ ((5 : ℤ) - 52) := by
  rw [fl64_char (e := 5) (by norm_num) (by norm_num)]
  rw [rne_eval_lo _ 8092405580431359 (by norm_num) (by norm_num)]
  norm_num

lemma progressValue_40_23 : progressValue 40 23 = 57 := by
  unfold progressValue
  rw [show ((23 : ℕ) : ℚ) = (23 : ℚ) from by norm_num,
    show ((40 : ℕ) : ℚ) = (40 : ℚ) from by norm_num]
  rw [fl64_23_40, fl64_prod_23_40]
  unfold jsRound
  norm_num

lemma fl64_199_200 : fl64 ((199 : ℚ) / 200) = (8962163258467287 : ℚ) * 2 ^ ((-1 : ℤ) - 52) := by
  rw [fl64_char (e := -1) (by norm_num) (by norm_num)]
  rw [rne_eval_lo _ 8962163258467287 (by norm_num) (by norm_num)]
  norm_num

lemma fl64_398_400 : fl64 ((398 : ℚ) / 400) = (8962163258467287 : ℚ) * 2 ^ ((-1 : ℤ) - 52) := by
  rw [fl64_char (e := -1) (by norm_num) (by norm_num)]
  rw [rne_eval_lo _ 8962163258467287 (by norm_num) (by norm_num)]
  norm_num

lemma fl64_prod_199_200 :
    fl64 ((8962163258467287 : ℚ) * 2 ^ ((-1 : ℤ) - 52) * 100) =
      (7001690045677568 : ℚ) * 2 ^ ((6 : ℤ) - 52) := by
  rw [fl64_char (e := 6) (by norm_num) (by norm_num)]
  rw [rne_eval_hi _ 7001690045677567 (by norm_num) (by norm_num)]
  norm_num

lemma progressValue_200_199 : progressValue 200 199 = 100 := by
  unfold progressValue
  rw [show ((199 : ℕ) : ℚ) = (199 : ℚ) from by norm_num,
    show ((200 : ℕ) : ℚ) = (200 : ℚ) from by norm_num]
  rw [fl64_199_200, fl64_prod_199_200]
  unfold jsRound
  norm_num

lemma progressValue_400_398 : progressValue 400 398 = 100 := by
  unfold progressValue
  rw [show ((398 : ℕ) : ℚ) = (398 : ℚ) from by norm_num,
    show ((400 : ℕ) : ℚ) = (400 : ℚ) from by norm_num]
  rw [fl64_398_400, fl64_prod_199_200]
  unfold jsRound
  norm_num

lemma progressValue_penultimate (N : ℕ) (hN : 200 ≤ N) :
    progressValue N (N - 1) = 100 := by
  rcases eq_or_lt_of_le hN with h200 | h201
  · rw [← h200]
    exact progressValue_200_199
  · have hcast : ((N - 1 : ℕ) : ℚ) = (N : ℚ) - 1 := by
      have h1 : 1 ≤ N := by omega
      push_cast [h1]
      ring
    have hNq : (201 : ℚ) ≤ (N : ℚ) := by exact_mod_cast h201
    have hNpos : (0 : ℚ) < (N : ℚ) := by linarith
    unfold progressValue jsRound
    rw [hcast]
    have hv0_lo : (200 : ℚ) / 201 ≤ ((N : ℚ) - 1) / (N : ℚ) := by
      rw [div_le_div_iff₀ (by norm_num) hNpos]
      linarith
    have hv0_hi : ((N : ℚ) - 1) / (N : ℚ) < 1 := by
      rw [div_lt_one hNpos]
      linarith
    have hb1 : (2 : ℚ) ^ (-1 : ℤ) ≤ ((N : ℚ) - 1) / (N : ℚ) := by
      rw [(by norm_num : ((2 : ℚ) ^ (-1 : ℤ)) = 1 / 2)]
      calc (1 / 2 : ℚ) ≤ 200 / 201 := by norm_num
        _ ≤ _ := hv0_lo
    have hb2 : ((N : ℚ) - 1) / (N : ℚ) < 2 ^ ((-1 : ℤ) + 1) := by
      calc ((N : ℚ) - 1) / (N : ℚ) < 1 := hv0_hi
        _ ≤ 2 ^ ((-1 : ℤ) + 1) := by norm_num
    have hv1_lo : ((N : ℚ) - 1) / (N : ℚ) - 2 ^ ((-1 : ℤ) - 53) ≤
        fl64 (((N : ℚ) - 1) / (N : ℚ)) := fl64_ge_of_binade hb1 hb2
    have hv1_hi : fl64 (((N : ℚ) - 1) / (N : ℚ)) ≤ 1 := by
      calc fl64 (((N : ℚ) - 1) / (N : ℚ)) ≤ fl64 1 :=
            fl64_mono (by positivity) (le_of_lt hv0_hi)
        _ = 1 := fl64_one
    have hv1_nonneg : (0 : ℚ) ≤ fl64 (((N : ℚ) - 1) / (N : ℚ)) := fl64_nonneg (by positivity)
    have hc1 : (2 : ℚ) ^ ((-1 : ℤ) - 53) < 1 / 1000 := by norm_num
    have hp_lo : (20000 : ℚ) / 201 - 100 * 2 ^ ((-1 : ℤ) - 53) ≤
        fl64 (((N : ℚ) - 1) / (N : ℚ)) * 100 := by nlinarith
    have hpb1 : (2 : ℚ) ^ (6 : ℤ) ≤ fl64 (((N : ℚ) - 1) / (N : ℚ)) * 100 := by
      have h64 : ((2 : ℚ) ^ (6 : ℤ)) = 64 := by norm_num
      rw [h64]
      have hgap : (20000 : ℚ) / 201 - 100 * 2 ^ ((-1 : ℤ) - 53) ≥ 64 := by norm_num
      linarith
    have hpb2 : fl64 (((N : ℚ) - 1) / (N : ℚ)) * 100 < 2 ^ ((6 : ℤ) + 1) := by
      have h128 : ((2 : ℚ) ^ ((6 : ℤ) + 1)) = 128 := by norm_num
      rw [h128]
      nlinarith
    have hP_lo : fl64 (((N : ℚ) - 1) / (N : ℚ)) * 100 - 2 ^ ((6 : ℤ) - 53) ≤
        fl64 (fl64 (((N : ℚ) - 1) / (N : ℚ)) * 100) := fl64_ge_of_binade hpb1 hpb2
    have hP_hi : fl64 (fl64 (((N : ℚ) - 1) / (N : ℚ)) * 100) ≤ 100 := by
      calc fl64 (fl64 (((N : ℚ) - 1) / (N : ℚ)) * 100) ≤ fl64 100 :=
            fl64_mono (by positivity) (by nlinarith)
        _ = 100 := fl64_hundred
    have hkey : (20000 : ℚ) / 201 - 100 * 2 ^ ((-1 : ℤ) - 53) - 2 ^ ((6 : ℤ) - 53) ≥
        199 / 2 := by norm_num
    rw [Int.floor_eq_iff]
    constructor
    · push_cast
      linarith
    · push_cast
      linarith

lemma getD_eq_get_of_lt {α : Type} (l : List α) (n : ℕ) (d : α) (h : n < l.length) :
    l.getD n d = l.get ⟨n, h⟩ := by
  simp [List.getD_eq_getElem?_getD, List.getElem?_eq_getElem h]

lemma buildProgress_getD (N k i j : ℕ) (d : ℤ) (hj : j < k) :
    (buildProgress N i k).getD j d = progressValue N (i + j) := by
  have hlen : j < (buildProgress N i k).length := by
    rw [buildProgress_length]
    exact hj
  rw [getD_eq_get_of_lt _ _ _ hlen, buildProgress_get]

/-! ### Characterization of the page loop -/

lemma processPages_ok_of_ge_two :
    ∀ (pages : List PageSpec) (N i : ℕ) (st : DeckState) (evs : List ℤ),
      2 ≤ i → (∀ p ∈ pages, p.renderOk = true) →
      processPages N i pages st evs =
        ({ layout := st.layout
           slides := st.slides ++ buildSlides (st.layout.getD defaultLayout) i pages },
         evs ++ buildProgress N i pages.length, none) := by
  intro pages
  induction pages with
  | nil =>
      intro N i st evs hi hok
      simp [processPages, buildSlides, buildProgress]
  | cons p ps ih =>
      intro N i st evs hi hok
      have hpok : p.renderOk = true := hok p (by simp)
      have hne : ¬ (i = 1) := by omega
      rw [processPages]
      simp only [hpok, if_true, hne, if_false]
      rw [ih N (i + 1) _ _ (by omega) (fun q hq => hok q (by simp [hq]))]
      simp [buildSlides, buildProgress, List.append_assoc]

lemma processPages_none_renderOk :
    ∀ (pages : List PageSpec) (N i : ℕ) (st : DeckState) (evs : List ℤ)
      (st2 : DeckState) (evs2 : List ℤ),
      processPages N i pages st evs = (st2, evs2, none) →
      ∀ p ∈ pages, p.renderOk = true := by
  intro pages
  induction pages with
  | nil => intro N i st evs st2 evs2 _ p hp; simp at hp
  | cons p ps ih =>
      intro N i st evs st2 evs2 hrun q hq
      by_cases hpok : p.renderOk = true
      · rw [processPages] at hrun
        simp only [hpok, if_true] at hrun
        rcases (by simpa using hq : q = p ∨ q ∈ ps) with h | h
        · rw [h]; exact hpok
        · exact ih N (i + 1) _ _ st2 evs2 hrun q h
      · rw [processPages] at hrun
        simp only [hpok, if_false] at hrun
        exact absurd (congrArg (fun t => t.2.2) hrun) (by simp)

lemma processPages_first_fail :
    ∀ (good : List PageSpec) (N i : ℕ) (bad : PageSpec) (rest : List PageSpec)
      (st : DeckState) (evs : List ℤ),
      (∀ p ∈ good, p.renderOk = true) → bad.renderOk = false →
      ∃ st2, processPages N i (good ++ bad :: rest) st evs =
        (st2, evs ++ buildProgress N i good.length, some (i + good.length)) := by
  intro good
  induction good with
  | nil =>
      intro N i bad rest st evs _ hbad
      refine ⟨st, ?_⟩
      rw [List.nil_append, processPages]
      simp [hbad, buildProgress]
  | cons g gs ih =>
      intro N i bad rest st evs hok hbad
      have hgok : g.renderOk = true := hok g (by simp)
      rw [List.cons_append, processPages]
      simp only [hgok, if_true]
      rcases ih N (i + 1) bad rest _ _ (fun q hq => hok q (by simp [hq])) hbad with ⟨st2, hrun⟩
      refine ⟨st2, ?_⟩
      rw [hrun]
      simp [buildProgress, List.append_assoc]
      omega

/-- A fully successful run on a nonempty page list, in closed form. -/
lemma convertPdfToPptx_ok (p0 : PageSpec) (rest : List PageSpec)
    (hok : ∀ p ∈ p0 :: rest, p.renderOk = true) :
    convertPdfToPptx ⟨some (p0 :: rest)⟩ =
      { pptxBlob := some { layout := some (inchesOf (getViewport p0))
                           slides := buildSlides (inchesOf (getViewport p0)) 1 (p0 :: rest) }
        errorMsg := none
        progressEvents := buildProgress (p0 :: rest).length 1 (p0 :: rest).length
        deckCreated := true } := by
  have hp0 : p0.renderOk = true := hok p0 (by simp)
  rw [convertPdfToPptx]
  simp only []
  rw [processPages]
  simp only [hp0, if_true, if_pos rfl]
  rw [processPages_ok_of_ge_two rest (p0 :: rest).length 2 _ _ (by omega)
    (fun q hq => hok q (by simp [hq]))]
  simp only [Option.getD_some]
  rw [writeDeck]
  simp [buildSlides, buildProgress, List.length_cons]

/-- A run that ends without an error necessarily had a nonempty page list and
no page-cycle failure. -/
lemma success_inversion (pages : List PageSpec)
    (h : (convertPdfToPptx ⟨some pages⟩).errorMsg = none) :
    ∃ p0 rest, pages = p0 :: rest ∧ ∀ p ∈ pages, p.renderOk = true := by
  cases pages with
  | nil =>
      exact absurd h (by rw [convertPdfToPptx]; simp [processPages, writeDeck])
  | cons p0 rest =>
      refine ⟨p0, rest, rfl, ?_⟩
      simp only [convertPdfToPptx] at h
      rcases hrun : processPages (p0 :: rest).length 1 (p0 :: rest)
        { layout := none, slides := [] } [] with ⟨st2, evs2, err⟩
      cases err with
      | some i => rw [hrun] at h; simp at h
      | none => exact processPages_none_renderOk (p0 :: rest) _ _ _ _ _ _ hrun

/-! ### Claim theorems -/

/-- Claim C1: for every document that decodes to a page list and converts
successfully, the produced deck holds exactly one slide per page, and the
slide at 0-based position j embeds the raster image of page j+1 — same order
as the source pages, no gaps, no reordering. -/
theorem deck_has_one_slide_per_page_in_order (pages : List PageSpec)
    (hok : (convertPdfToPptx ⟨some pages⟩).errorMsg = none) :
    ∃ b, (convertPdfToPptx ⟨some pages⟩).pptxBlob = some b ∧
      b.slides.length = pages.length ∧
      ∀ j (hj : j < b.slides.length),
        (b.slides.get ⟨j, hj⟩).image = rasterize (j + 1) (pages.getD j blankPage) := by
  rcases success_inversion pages hok with ⟨p0, rest, rfl, hall⟩
  rw [convertPdfToPptx_ok p0 rest hall]
  refine ⟨_, rfl, buildSlides_length _ _ _, ?_⟩
  intro j hj
  rw [buildSlides_get]
  simp [mkSlide, Nat.add_comm]

/-- Claim C2: on every successful conversion, every slide of the deck has
the deck-level canvas size derived from page 1's viewport; no slide carries
a diverging per-page size, whatever the later pages' intrinsic sizes are. -/
theorem all_slides_share_page_one_canvas (pages : List PageSpec)
    (hok : (convertPdfToPptx ⟨some pages⟩).errorMsg = none) :
    ∃ p0 rest b, pages = p0 :: rest ∧
      (convertPdfToPptx ⟨some pages⟩).pptxBlob = some b ∧
      b.layout = some (inchesOf (getViewport p0)) ∧
      ∀ s ∈ b.slides, s.slideSize = inchesOf (getViewport p0) := by
  rcases success_inversion pages hok with ⟨p0, rest, rfl, hall⟩
  rw [convertPdfToPptx_ok p0 rest hall]
  exact ⟨p0, rest, _, rfl, rfl, rfl, fun s hs => buildSlides_slideSize _ _ _ s hs⟩

/-- Claim C3 counterexample: in a 40-page conversion, the value reported
after page 23 is 57 — the double-precision evaluation of (23/40)*100 yields
57.49999999999999289, which Math.round takes to 57 — while the claim's
exact formula round(100 * 23 / 40) = round(57.5) gives 58. -/
theorem progress_not_exact_round_cex :
    (convertPdfToPptx
        ⟨some ((⟨612, 792, true⟩ : PageSpec) :: List.replicate 39 ⟨612, 792, true⟩)⟩
        ).progressEvents.getD 22 0 = 57 ∧
    jsRound (100 * (23 : ℚ) / 40) = 58 := by
  constructor
  · rw [convertPdfToPptx_ok ⟨612, 792, true⟩ (List.replicate 39 ⟨612, 792, true⟩) (by decide)]
    have hlen : ((⟨612, 792, true⟩ : PageSpec) :: List.replicate 39 ⟨612, 792, true⟩).length
        = 40 := by
      simp
    simp only [hlen]
    rw [buildProgress_getD 40 40 1 22 0 (by omega)]
    exact progressValue_40_23
  · unfold jsRound
    norm_num

/-- Claim C3 (amended): on every successful conversion of an N-page
document, the reported progress value after page i is the IEEE-754
double-precision evaluation of round(100 * i / N) — Math.round applied to
the doubly rounded product fl64(fl64(i / N) * 100) — and the reported
sequence has length N, is monotonically non-decreasing, and ends at exactly
100. -/
theorem progress_reports_double_rounded_formula (pages : List PageSpec)
    (hok : (convertPdfToPptx ⟨some pages⟩).errorMsg = none) :
    (convertPdfToPptx ⟨some pages⟩).progressEvents.length = pages.length ∧
    (∀ j (hj : j < (convertPdfToPptx ⟨some pages⟩).progressEvents.length),
      (convertPdfToPptx ⟨some pages⟩).progressEvents.get ⟨j, hj⟩ =
        jsRound (fl64 (fl64 (((j : ℚ) + 1) / (pages.length : ℚ)) * 100))) ∧
    (∀ j k (hj : j < (convertPdfToPptx ⟨some pages⟩).progressEvents.length)
      (hk : k < (convertPdfToPptx ⟨some pages⟩).progressEvents.length), j ≤ k →
      (convertPdfToPptx ⟨some pages⟩).progressEvents.get ⟨j, hj⟩ ≤
        (convertPdfToPptx ⟨some pages⟩).progressEvents.get ⟨k, hk⟩) ∧
    (convertPdfToPptx ⟨some pages⟩).progressEvents.getLast? = some 100 := by
  rcases success_inversion pages hok with ⟨p0, rest, rfl, hall⟩
  rw [convertPdfToPptx_ok p0 rest hall]
  refine ⟨buildProgress_length _ _ _, ?_, ?_, ?_⟩
  · intro j hj
    rw [buildProgress_get]
    unfold progressValue
    rw [show ((1 + j : ℕ) : ℚ) = (j : ℚ) + 1 from by push_cast; ring]
  · intro j k hj hk hjk
    rw [buildProgress_get, buildProgress_get]
    exact progressValue_mono _ (by omega)
  · have hlen : (p0 :: rest).length = rest.length + 1 := by simp
    rw [hlen, buildProgress_getLast]
    rw [(by omega : 1 + rest.length = rest.length + 1)]
    rw [progressValue_last (rest.length + 1) (by omega)]

/-- Claim C4 (amended): the deck canvas size is derived once, from page 1's
viewport, as pixel dimensions divided by (72 * scale) with scale = 2.0, and
every slide's embedded image sits at (0, 0) with width and height derived by
the same formula from that page's own viewport — which coincides with the
deck canvas size only when that page's viewport equals page 1's. -/
theorem canvas_from_page_one_and_per_page_image_geometry (pages : List PageSpec)
    (hok : (convertPdfToPptx ⟨some pages⟩).errorMsg = none) :
    ∃ p0 rest b, pages = p0 :: rest ∧
      (convertPdfToPptx ⟨some pages⟩).pptxBlob = some b ∧
      b.layout = some { width := ((getViewport p0).pixelWidth : ℚ) / (72 * scale)
                        height := ((getViewport p0).pixelHeight : ℚ) / (72 * scale) } ∧
      ∀ j (hj : j < b.slides.length),
        (b.slides.get ⟨j, hj⟩).x = 0 ∧ (b.slides.get ⟨j, hj⟩).y = 0 ∧
        (b.slides.get ⟨j, hj⟩).w =
          ((getViewport (pages.getD j blankPage)).pixelWidth : ℚ) / (72 * scale) ∧
        (b.slides.get ⟨j, hj⟩).h =
          ((getViewport (pages.getD j blankPage)).pixelHeight : ℚ) / (72 * scale) := by
  rcases success_inversion pages hok with ⟨p0, rest, rfl, hall⟩
  rw [convertPdfToPptx_ok p0 rest hall]
  refine ⟨p0, rest, _, rfl, rfl, rfl, ?_⟩
  intro j hj
  rw [buildSlides_get]
  exact ⟨rfl, rfl, rfl, rfl⟩

/-- Helper for witnesses: a run over a nonempty all-renderable page list ends
without an error. -/
lemma convert_ok_errorMsg_none (p0 : PageSpec) (rest : List PageSpec)
    (hall : ∀ p ∈ p0 :: rest, p.renderOk = true) :
    (convertPdfToPptx ⟨some (p0 :: rest)⟩).errorMsg = none := by
  rw [convertPdfToPptx_ok p0 rest hall]

/-- Claim C4 counterexample: a two-page document whose second page is the
first page rotated (612x792 then 792x612).  The deck canvas is 8.5in x 11in
(from page 1), but slide 2's embedded image is 11in wide — the image size
comes from that page's own viewport, not from the deck canvas, refuting the
claim that every slide's image has size equal to the deck's canvas size. -/
theorem image_size_diverges_from_deck_canvas_cex :
    (convertPdfToPptx ⟨some [⟨612, 792, true⟩, ⟨792, 612, true⟩]⟩).errorMsg = none ∧
    ((convertPdfToPptx ⟨some [⟨612, 792, true⟩, ⟨792, 612, true⟩]⟩).pptxBlob.getD
        ⟨none, []⟩).layout = some ⟨17 / 2, 11⟩ ∧
    (((convertPdfToPptx ⟨some [⟨612, 792, true⟩, ⟨792, 612, true⟩]⟩).pptxBlob.getD
        ⟨none, []⟩).slides.getD 1 (mkSlide 0 blankPage ⟨0, 0⟩)).w = 11 ∧
    (11 : ℚ) ≠ 17 / 2 := by
  rw [convertPdfToPptx_ok ⟨612, 792, true⟩ [⟨792, 612, true⟩] (by decide)]
  refine ⟨rfl, ?_, ?_, by norm_num⟩
  · simp only [Option.getD_some, inchesOf, getViewport, scale, Option.some.injEq,
      CanvasSize.mk.injEq]
    norm_num
  · simp only [Option.getD_some, buildSlides, List.getD, mkSlide, inchesOf, getViewport, scale]
    norm_num

/-- Claim C5: a zero-page document ends as a failure with EmptyDeckError and
produces no blob — never a successful conversion with zero slides. -/
theorem zero_page_document_fails_empty_deck :
    (convertPdfToPptx ⟨some []⟩).errorMsg = some ConvError.emptyDeckError ∧
    (convertPdfToPptx ⟨some []⟩).pptxBlob = none :=
  ⟨rfl, rfl⟩

/-- Claim C6: the first page-cycle failure aborts the whole conversion with
exactly one terminal failure outcome and no output blob; pages after the
failing one are never processed, so only the pages before it were reported. -/
theorem page_cycle_error_aborts_conversion (good : List PageSpec) (bad : PageSpec)
    (rest : List PageSpec)
    (hg : ∀ p ∈ good, p.renderOk = true) (hb : bad.renderOk = false) :
    (convertPdfToPptx ⟨some (good ++ bad :: rest)⟩).errorMsg =
      some (ConvError.renderError (1 + good.length)) ∧
    (convertPdfToPptx ⟨some (good ++ bad :: rest)⟩).pptxBlob = none ∧
    (convertPdfToPptx ⟨some (good ++ bad :: rest)⟩).progressEvents.length = good.length := by
  rcases processPages_first_fail good (good ++ bad :: rest).length 1 bad rest
    { layout := none, slides := [] } [] hg hb with ⟨st2, hrun⟩
  simp only [convertPdfToPptx]
  rw [hrun]
  refine ⟨rfl, rfl, ?_⟩
  simp [buildProgress_length]

/-- Witness for C6: a 2-page document whose second page fails to render is
aborted at page 2 with one render failure, no blob, and one progress report. -/
theorem page_cycle_error_aborts_conversion_witness :
    (convertPdfToPptx ⟨some [⟨612, 792, true⟩, ⟨612, 792, false⟩]⟩).errorMsg =
      some (ConvError.renderError 2) ∧
    (convertPdfToPptx ⟨some [⟨612, 792, true⟩, ⟨612, 792, false⟩]⟩).pptxBlob = none ∧
    (convertPdfToPptx ⟨some [⟨612, 792, true⟩, ⟨612, 792, false⟩]⟩).progressEvents.length = 1 :=
  page_cycle_error_aborts_conversion [⟨612, 792, true⟩] ⟨612, 792, false⟩ [] (by decide) rfl

/-- Claim C7: for a page of positive intrinsic size, the viewport computed at
the fixed scale has pixel dimensions ceil(intrinsicSize * scale), both
positive, and the raster image produced has exactly the viewport's
dimensions. -/
theorem viewport_is_ceil_and_raster_matches (p : PageSpec) (i : ℕ)
    (hw : 0 < p.width) (hh : 0 < p.height) :
    (getViewport p).pixelWidth = ⌈p.width * scale⌉ ∧
    (getViewport p).pixelHeight = ⌈p.height * scale⌉ ∧
    0 < (getViewport p).pixelWidth ∧
    0 < (getViewport p).pixelHeight ∧
    (rasterize i p).pixelWidth = (getViewport p).pixelWidth ∧
    (rasterize i p).pixelHeight = (getViewport p).pixelHeight := by
  have hs : (0 : ℚ) < scale := by norm_num [scale]
  exact ⟨rfl, rfl, Int.ceil_pos.mpr (mul_pos hw hs), Int.ceil_pos.mpr (mul_pos hh hs),
    rfl, rfl⟩

/-- Witness for C7: a US-Letter page (612x792 points) at scale 2 yields a
1224x1584 pixel viewport and a raster image of the same dimensions. -/
theorem viewport_is_ceil_and_raster_matches_witness :
    (0 : ℚ) < 612 ∧
    ((getViewport ⟨612, 792, true⟩).pixelWidth = ⌈(612 : ℚ) * scale⌉ ∧
     (getViewport ⟨612, 792, true⟩).pixelHeight = ⌈(792 : ℚ) * scale⌉ ∧
     0 < (getViewport ⟨612, 792, true⟩).pixelWidth ∧
     0 < (getViewport ⟨612, 792, true⟩).pixelHeight ∧
     (rasterize 1 ⟨612, 792, true⟩).pixelWidth = (getViewport ⟨612, 792, true⟩).pixelWidth ∧
     (rasterize 1 ⟨612, 792, true⟩).pixelHeight = (getViewport ⟨612, 792, true⟩).pixelHeight) :=
  ⟨by norm_num,
   viewport_is_ceil_and_raster_matches ⟨612, 792, true⟩ 1 (by norm_num) (by norm_num)⟩

/-- Claim C8: an undecodable buffer fails with DecodeError before the deck
builder is constructed: no progress events, no deck, no blob. -/
theorem undecodable_buffer_fails_before_deck :
    (convertPdfToPptx ⟨none⟩).errorMsg = some ConvError.decodeError ∧
    (convertPdfToPptx ⟨none⟩).pptxBlob = none ∧
    (convertPdfToPptx ⟨none⟩).progressEvents = [] ∧
    (convertPdfToPptx ⟨none⟩).deckCreated = false :=
  ⟨rfl, rfl, rfl, rfl⟩

/-- Claim C9 counterexample: for the source file name a.pdf.pdf the download
name the code computes is a.pptx.pdf — the FIRST occurrence of .pdf is
replaced — and not a.pdf.pptx, the name with the TRAILING extension
replaced, refuting the claim as stated. -/
theorem download_name_not_trailing_replacement_cex :
    downloadName (['a'] ++ pdfExt ++ pdfExt) ≠ ['a'] ++ pdfExt ++ pptxExt ∧
    downloadName (['a'] ++ pdfExt ++ pdfExt) = ['a'] ++ pptxExt ++ pdfExt := by
  constructor <;> decide

/-- Claim C9 (amended): the download name substitutes the FIRST occurrence of
.pdf in the source file name with .pptx; in particular, whenever the
trailing .pdf extension is the earliest occurrence of .pdf in the name
(there is no occurrence starting inside the base), the trailing extension is
replaced as the claim states. -/
theorem download_name_replaces_first_pdf_occurrence (base : List Char)
    (h : ∀ i, i < base.length → pdfExt.isPrefixOf ((base ++ pdfExt).drop i) = false) :
    downloadName (base ++ pdfExt) = base ++ pptxExt := by
  induction base with
  | nil => decide
  | cons c bs ih =>
      have h0 : pdfExt.isPrefixOf (c :: (bs ++ pdfExt)) = false := by
        simpa using h 0 (by simp)
      have hshift : ∀ i, i < bs.length → pdfExt.isPrefixOf ((bs ++ pdfExt).drop i) = false := by
        intro i hi
        have hb : i + 1 < (c :: bs).length := by simp [List.length_cons]; omega
        simpa [List.drop_succ_cons] using h (i + 1) hb
      calc downloadName ((c :: bs) ++ pdfExt)
          = c :: downloadName (bs ++ pdfExt) := by
            unfold downloadName
            rw [List.cons_append, replaceFirst]
            simp [h0]
        _ = c :: (bs ++ pptxExt) := by rw [ih hshift]
        _ = (c :: bs) ++ pptxExt := rfl

/-- Witness for the amended C9: report.pdf becomes report.pptx. -/
theorem download_name_replaces_first_pdf_occurrence_witness :
    downloadName (['r', 'e', 'p', 'o', 'r', 't'] ++ pdfExt) =
      ['r', 'e', 'p', 'o', 'r', 't'] ++ pptxExt :=
  download_name_replaces_first_pdf_occurrence ['r', 'e', 'p', 'o', 'r', 't'] (by decide)

/-- Claim C10 counterexample: in a 400-page conversion (N = 400, which is
at least 200) the value reported after page 398 — 0-based event index 397,
page N - 2 — is already 100, so the value 100 is NOT first emitted at page
N - 1 = 399 as the claim states (double-precision evaluation gives exactly
99.5 there, which Math.round takes to 100). -/
theorem progress_hundred_before_penultimate_cex :
    (convertPdfToPptx
        ⟨some ((⟨612, 792, true⟩ : PageSpec) :: List.replicate 399 ⟨612, 792, true⟩)⟩
        ).progressEvents.getD 397 0 = 100 ∧ 398 < 400 - 1 := by
  constructor
  · rw [convertPdfToPptx_ok ⟨612, 792, true⟩ (List.replicate 399 ⟨612, 792, true⟩) (by decide)]
    have hlen : ((⟨612, 792, true⟩ : PageSpec) :: List.replicate 399 ⟨612, 792, true⟩).length
        = 400 := by
      simp
    simp only [hlen]
    rw [buildProgress_getD 400 400 1 397 0 (by omega)]
    exact progressValue_400_398
  · norm_num

/-- Claim C10 (amended): for every N at least 200, the value reported at
page N - 1 is already exactly 100 — so 100 appears before the final page
completes, possibly even earlier — while every reported value stays within
[0, 100] and the sequence remains non-decreasing. -/
theorem progress_hundred_at_penultimate_page (N : ℕ) (h : 200 ≤ N) :
    progressValue N (N - 1) = 100 ∧
    (∀ i, i ≤ N → 0 ≤ progressValue N i ∧ progressValue N i ≤ 100) ∧
    (∀ i j, i ≤ j → progressValue N i ≤ progressValue N j) := by
  refine ⟨progressValue_penultimate N h, ?_, ?_⟩
  · intro i hi
    exact ⟨progressValue_nonneg N i, progressValue_le_hundred N i (by omega) hi⟩
  · intro i j hij
    exact progressValue_mono N hij

/-- Witness for the amended C10: with 200 pages, page 199 already reports
100. -/
theorem progress_hundred_at_penultimate_page_witness :
    200 ≤ 200 ∧ progressValue 200 (200 - 1) = 100 :=
  ⟨by norm_num, (progress_hundred_at_penultimate_page 200 (by norm_num)).1⟩

/-- Witness for C1: a one-page US-Letter document yields one slide holding
page 1's raster image. -/
theorem deck_has_one_slide_per_page_in_order_witness :
    ∃ b, (convertPdfToPptx ⟨some [⟨612, 792, true⟩]⟩).pptxBlob = some b ∧
      b.slides.length = ([⟨612, 792, true⟩] : List PageSpec).length ∧
      ∀ j (hj : j < b.slides.length),
        (b.slides.get ⟨j, hj⟩).image =
          rasterize (j + 1) (([⟨612, 792, true⟩] : List PageSpec).getD j blankPage) :=
  deck_has_one_slide_per_page_in_order [⟨612, 792, true⟩]
    (convert_ok_errorMsg_none ⟨612, 792, true⟩ [] (by decide))

/-- Witness for C2: a two-page document with a rotated second page still
gives every slide the canvas size derived from page 1. -/
theorem all_slides_share_page_one_canvas_witness :
    ∃ p0 rest b, ([⟨612, 792, true⟩, ⟨792, 612, true⟩] : List PageSpec) = p0 :: rest ∧
      (convertPdfToPptx ⟨some [⟨612, 792, true⟩, ⟨792, 612, true⟩]⟩).pptxBlob = some b ∧
      b.layout = some (inchesOf (getViewport p0)) ∧
      ∀ s ∈ b.slides, s.slideSize = inchesOf (getViewport p0) :=
  all_slides_share_page_one_canvas [⟨612, 792, true⟩, ⟨792, 612, true⟩]
    (convert_ok_errorMsg_none ⟨612, 792, true⟩ [⟨792, 612, true⟩] (by decide))

/-- Witness for the amended C3: a three-page document reports a length-3,
non-decreasing progress sequence following the double-precision rounding
formula and ending at 100. -/
theorem progress_reports_double_rounded_formula_witness :
    (convertPdfToPptx ⟨some [⟨612, 792, true⟩, ⟨612, 792, true⟩, ⟨612, 792, true⟩]⟩).progressEvents.length =
      ([⟨612, 792, true⟩, ⟨612, 792, true⟩, ⟨612, 792, true⟩] : List PageSpec).length ∧
    (∀ j (hj : j < (convertPdfToPptx ⟨some [⟨612, 792, true⟩, ⟨612, 792, true⟩, ⟨612, 792, true⟩]⟩).progressEvents.length),
      (convertPdfToPptx ⟨some [⟨612, 792, true⟩, ⟨612, 792, true⟩, ⟨612, 792, true⟩]⟩).progressEvents.get ⟨j, hj⟩ =
        jsRound (fl64 (fl64 (((j : ℚ) + 1) /
          (([⟨612, 792, true⟩, ⟨612, 792, true⟩, ⟨612, 792, true⟩] : List PageSpec).length : ℚ)) * 100))) ∧
    (∀ j k (hj : j < (convertPdfToPptx ⟨some [⟨612, 792, true⟩, ⟨612, 792, true⟩, ⟨612, 792, true⟩]⟩).progressEvents.length)
      (hk : k < (convertPdfToPptx ⟨some [⟨612, 792, true⟩, ⟨612, 792, true⟩, ⟨612, 792, true⟩]⟩).progressEvents.length), j ≤ k →
      (convertPdfToPptx ⟨some [⟨612, 792, true⟩, ⟨612, 792, true⟩, ⟨612, 792, true⟩]⟩).progressEvents.get ⟨j, hj⟩ ≤
        (convertPdfToPptx ⟨some [⟨612, 792, true⟩, ⟨612, 792, true⟩, ⟨612, 792, true⟩]⟩).progressEvents.get ⟨k, hk⟩) ∧
    (convertPdfToPptx ⟨some [⟨612, 792, true⟩, ⟨612, 792, true⟩, ⟨612, 792, true⟩]⟩).progressEvents.getLast? = some 100 :=
  progress_reports_double_rounded_formula [⟨612, 792, true⟩, ⟨612, 792, true⟩, ⟨612, 792, true⟩]
    (convert_ok_errorMsg_none ⟨612, 792, true⟩ [⟨612, 792, true⟩, ⟨612, 792, true⟩] (by decide))

/-- Witness for the amended C4: on a two-page document with a rotated second
page, the deck canvas comes from page 1 by the division formula and each
slide's image sits at the origin sized by its own page's viewport. -/
theorem canvas_from_page_one_geometry_witness :
    ∃ p0 rest b, ([⟨612, 792, true⟩, ⟨792, 612, true⟩] : List PageSpec) = p0 :: rest ∧
      (convertPdfToPptx ⟨some [⟨612, 792, true⟩, ⟨792, 612, true⟩]⟩).pptxBlob = some b ∧
      b.layout = some { width := ((getViewport p0).pixelWidth : ℚ) / (72 * scale)
                        height := ((getViewport p0).pixelHeight : ℚ) / (72 * scale) } ∧
      ∀ j (hj : j < b.slides.length),
        (b.slides.get ⟨j, hj⟩).x = 0 ∧ (b.slides.get ⟨j, hj⟩).y = 0 ∧
        (b.slides.get ⟨j, hj⟩).w =
          ((getViewport (([⟨612, 792, true⟩, ⟨792, 612, true⟩] : List PageSpec).getD j blankPage)).pixelWidth : ℚ) / (72 * scale) ∧
        (b.slides.get ⟨j, hj⟩).h =
          ((getViewport (([⟨612, 792, true⟩, ⟨792, 612, true⟩] : List PageSpec).getD j blankPage)).pixelHeight : ℚ) / (72 * scale) :=
  canvas_from_page_one_and_per_page_image_geometry [⟨612, 792, true⟩, ⟨792, 612, true⟩]
    (convert_ok_errorMsg_none ⟨612, 792, true⟩ [⟨792, 612, true⟩] (by decide))

example : getViewport ⟨612, 792, true⟩ = ⟨1224, 1584⟩ := by
  simp only [getViewport, scale, Viewport.mk.injEq]
  norm_num

example : inchesOf ⟨1224, 1584⟩ = ⟨17 / 2, 11⟩ := by
  simp only [inchesOf, scale, CanvasSize.mk.injEq]
  norm_num

example : downloadName (['a'] ++ pdfExt ++ pdfExt) = ['a'] ++ pptxExt ++ pdfExt := by decide

end PdfToPptx
